import Mathlib

/-!
Verification development for the llama-config-proxy rewrite core: a shallow
embedding of the pattern matcher, predicate engine, action pipeline, template
execution, route matching and the streaming line processor, with theorems
about their behaviour.

Modelling conventions, matching the Go source:
* `map[string]any` values decoded from JSON are `GoMap := Option JObj`;
  `none` is Go's nil map (which `encoding/json` produces for the input
  `null` without an error).  Reading a nil map yields the zero value and
  `delete` on it is a no-op, but assigning to it is a runtime panic, so
  map assignment lives in `Except RuntimePanic`.
* JSON numbers are modelled as integers (`Int`); no claim here depends on
  non-integral values.
* Compiled regular expressions (Go's `regexp` package, external to the
  repository) are abstract predicates `String → Bool`; regexp compilation
  is an abstract parameter `String → Option (String → Bool)`.
* `text/template` execution and `encoding/json` parsing/serialisation are
  likewise external libraries and appear as abstract function parameters.
* Calls into the logging sink have no observable effect on the data flow
  and are dropped, together with the variables that only feed them
  (`beforeValues`, `addedKeys`, `updatedKeys`, `deletedKeys`, `opExecuted`).
-/

namespace LlamaProxy

/-- A decoded JSON value (`any` in the Go source after `json.Unmarshal`). -/
inductive JValue where
  | null
  | bool (b : Bool)
  | num (n : Int)
  | str (s : String)
  | arr (elems : List JValue)
  | obj (fields : List (String × JValue))

/-- The contents of a non-nil `map[string]any`, as an association list. -/
abbrev JObj := List (String × JValue)

/-- A Go `map[string]any`: `none` is the nil map. -/
abbrev GoMap := Option JObj

/-- A Go `map[string]string` (headers, query parameters). -/
abbrev SMap := List (String × String)

/-- A Go runtime panic reachable in the modelled core. -/
inductive RuntimePanic where
  | nilMapAssign
deriving DecidableEq, Repr

/-- `strings.ToLower`, character-wise (over the string's character list so
that concrete instances compute). -/
def strToLower (s : String) : String := ⟨s.data.map Char.toLower⟩

/-- `strings.HasPrefix`, over the strings' character lists. -/
def strHasPrefix (s pre : String) : Bool := pre.data.isPrefixOf s.data

/-- `strings.TrimPrefix` restricted to its guarded use (the caller checked
`strHasPrefix`), over the strings' character lists. -/
def strDropPrefix (s pre : String) : String := ⟨s.data.drop pre.data.length⟩

/-- Map read `m[k]`: first binding wins (Go maps have unique keys). -/
def lookupKey (m : List (String × α)) (k : String) : Option α :=
  (m.find? (fun p => p.1 == k)).map (·.2)

/-- Remove every binding of `k` (Go `delete(m, k)` on decoded contents). -/
def eraseKey (m : List (String × α)) (k : String) : List (String × α) :=
  m.filter (fun p => p.1 != k)

/-- Map write `m[k] = v` on non-nil contents: replaces any old binding. -/
def insertKey (m : List (String × α)) (k : String) (v : α) : List (String × α) :=
  eraseKey m k ++ [(k, v)]

/-- `maps.Copy(dst, src)` / `for k, v := range src { dst[k] = v }`. -/
def copyAll (dst src : List (String × α)) : List (String × α) :=
  src.foldl (fun acc p => insertKey acc p.1 p.2) dst

/-- Map read on a possibly-nil Go map: reading a nil map finds nothing. -/
def goLookup (m : GoMap) (k : String) : Option JValue :=
  lookupKey (m.getD []) k

/-- Map write `m[k] = v` on a possibly-nil Go map: assignment to an entry
in a nil map is a runtime panic. -/
def goAssign (m : GoMap) (k : String) (v : JValue) : Except RuntimePanic GoMap :=
  match m with
  | none => .error .nilMapAssign
  | some fields => .ok (some (insertKey fields k v))

/-- `delete(m, k)`: a no-op on a nil map. -/
def goDelete (m : GoMap) (k : String) : GoMap :=
  m.map (fun fields => eraseKey fields k)

mutual

/-- `fmt.Sprintf("%v", v)` on a JSON-decoded value, as `toStringMap` uses it. -/
def jvFormat : JValue → String
  | .null => "<nil>"
  | .bool b => cond b "true" "false"
  | .num n => toString n
  | .str s => s
  | .arr elems => "[" ++ jvFormatList elems ++ "]"
  | .obj fields => "map[" ++ jvFormatFields fields ++ "]"

/-- Space-separated rendering of a slice's elements. -/
def jvFormatList : List JValue → String
  | [] => ""
  | [v] => jvFormat v
  | v :: rest => jvFormat v ++ " " ++ jvFormatList rest

/-- `key:value` rendering of a map's entries. -/
def jvFormatFields : List (String × JValue) → String
  | [] => ""
  | [(k, v)] => k ++ ":" ++ jvFormat v
  | (k, v) :: rest => k ++ ":" ++ jvFormat v ++ " " ++ jvFormatFields rest

end

/-! ## Pattern Matcher (config.PatternField) -/

/-- `PatternField`: source pattern strings plus their compiled forms.  A
compiled Go regexp is abstract: its `MatchString` method, a `String → Bool`. -/
structure PatternField where
  Patterns : List String
  Compiled : List (String → Bool)

/-- `Matches` reports whether the input matches any compiled pattern. -/
def PatternField.Matches (p : PatternField) (input : String) : Bool :=
  p.Compiled.any (fun re => re input)

/-- The implicit case-insensitive modifier `Validate` prepends. -/
def regexFlags : String := "(?i)"

/-- Compile each pattern with the `(?i)` flag, failing on the first invalid
one.  `regexpCompile` abstracts `regexp.Compile`. -/
def compilePatterns (regexpCompile : String → Option (String → Bool)) :
    List String → Option (List (String → Bool))
  | [] => some []
  | pattern :: rest =>
    match regexpCompile (regexFlags ++ pattern) with
    | none => none
    | some re =>
      match compilePatterns regexpCompile rest with
      | none => none
      | some res => some (re :: res)

/-- `Validate` checks that all patterns are valid regexes and compiles them,
returning the field with its `Compiled` slice filled in. -/
def PatternField.Validate (regexpCompile : String → Option (String → Bool))
    (p : PatternField) : Option PatternField :=
  (compilePatterns regexpCompile p.Patterns).map
    (fun compiled => { Patterns := p.Patterns, Compiled := compiled })

/-! ## Predicate Engine (config.BoolExpr) -/

/-- A boolean expression tree: leaf matchers for body / query / headers
(implicitly AND-ed) and `and` / `or` / `not` operators. -/
inductive BoolExpr where
  | mk (bodyM queryM headersM : List (String × PatternField))
       (andL orL : List BoolExpr) (notO : Option BoolExpr)

/-- `toStringMap` stringifies body values (`fmt.Sprintf("%v", value)`) for
pattern matching. -/
def toStringMap (data : JObj) : SMap :=
  data.map (fun p => (p.1, jvFormat p.2))

/-- Header keys normalised to lower case for case-insensitive matching. -/
def normalizeHeaders (headers : SMap) : SMap :=
  headers.foldl (fun acc p => insertKey acc (strToLower p.1) p.2) []

/-- One leaf map check: every named field must exist in the input and match
its pattern (absence is a non-match). -/
def leafMapOk (matchers : List (String × PatternField)) (input : SMap) : Bool :=
  matchers.all (fun p =>
    match lookupKey input p.1 with
    | some actualValue => p.2.Matches actualValue
    | none => false)

/-- `evaluateLeafMatchers`: body, query and header matchers must all match
(implicit AND); header keys are looked up lower-cased. -/
def evaluateLeafMatchers (bodyM queryM headersM : List (String × PatternField))
    (bodyStrings normalizedHeaders query : SMap) : Bool :=
  leafMapOk bodyM bodyStrings &&
  leafMapOk queryM query &&
  headersM.all (fun p =>
    match lookupKey normalizedHeaders (strToLower p.1) with
    | some actualValue => p.2.Matches actualValue
    | none => false)

mutual

/-- `BoolExpr.Evaluate` against request data: leaf matchers, then `and`
(all), `or` (at least one, when present), `not` (must not match), combined
by logical AND.  Ranging over a nil body map yields no entries, so the body
is a `GoMap`. -/
def BoolExpr.Evaluate : BoolExpr → GoMap → SMap → SMap → Bool
  | .mk bodyM queryM headersM andL orL notO, body, headers, query =>
    evaluateLeafMatchers bodyM queryM headersM (toStringMap (body.getD []))
      (normalizeHeaders headers) query &&
    evalForAll andL body headers query &&
    (orL.isEmpty || evalExists orL body headers query) &&
    (match notO with
     | some n => !(BoolExpr.Evaluate n body headers query)
     | none => true)
termination_by structural e => e

/-- The `and` loop: every sub-expression must evaluate true. -/
def evalForAll : List BoolExpr → GoMap → SMap → SMap → Bool
  | [], _, _, _ => true
  | e :: es, body, headers, query =>
    BoolExpr.Evaluate e body headers query && evalForAll es body headers query
termination_by structural l => l

/-- The `or` loop: at least one sub-expression must evaluate true. -/
def evalExists : List BoolExpr → GoMap → SMap → SMap → Bool
  | [], _, _, _ => false
  | e :: es, body, headers, query =>
    BoolExpr.Evaluate e body headers query || evalExists es body headers query
termination_by structural l => l

end

/-- A nil (absent) expression always matches. -/
def evalWhen : Option BoolExpr → GoMap → SMap → SMap → Bool
  | none, _, _, _ => true
  | some b, body, headers, query => b.Evaluate body headers query

/-! ## Template execution (config.ExecuteTemplate) -/

/-- A compiled `text/template`: its `Execute` against the body, abstract
(`none` = execution error).  The rendered text is then JSON-parsed. -/
abbrev Render := GoMap → Option String

/-- `json.Unmarshal` into a `map[string]any`, abstract.  `none` = parse
error; `some none` = the input `null`, which decodes to a nil map. -/
abbrev JsonParse := String → Option GoMap

/-- Clearing the output map and copying the template result into it
(`for k := range output { delete(output, k) }` then
`for k, v := range result { output[k] = v }`).  Deleting from a nil map is
a no-op, assigning into it panics. -/
def clearAndCopy (output : GoMap) (result : JObj) : Except RuntimePanic GoMap :=
  result.foldlM (fun acc p => goAssign acc p.1 p.2)
    (output.map (fun _ => ([] : JObj)))

/-- `ExecuteTemplate` renders the template against the body and, when the
output parses as JSON, replaces the body's contents with the parsed object.
Returns the body and the success flag; render or parse failures are logged
only and leave the body unchanged.  The Go function takes separate input
and output maps, but its only caller passes the same map (`data`) for
both, which is how it is modelled here. -/
def ExecuteTemplate (render : Render) (jsonParse : JsonParse) (data : GoMap) :
    Except RuntimePanic (GoMap × Bool) :=
  match render data with
  | none => .ok (data, false)
  | some rendered =>
    match jsonParse rendered with
    | none => .ok (data, false)
    | some result =>
      (clearAndCopy data (result.getD [])).map (fun d => (d, true))

/-! ## Action Pipeline (config.processActions) -/

/-- `ActionExec`: one executable action (the `when` predicate, one optional
template plus merge / default / delete maps, and the `stop` flag). -/
structure ActionExec where
  When : Option BoolExpr
  Template : String
  Merge : JObj
  Default : JObj
  Delete : List String
  Stop : Bool

/-- The per-phase compiled template slice, aligned by index with the
actions (`none` where the action has no template).  Compilation keeps the
slice exactly as long as the action list, and the slice is only indexed
for actions with a non-empty template string. -/
abbrev Templates := List (Option Render)

/-- `applyMerge`: unconditionally set each merge key, recording it. -/
def applyMerge (data : GoMap) (mergeValues : JObj) (opChanges : JObj) :
    Except RuntimePanic (GoMap × JObj) :=
  mergeValues.foldlM
    (fun acc p => do
      let d ← goAssign acc.1 p.1 p.2
      pure (d, insertKey acc.2 p.1 p.2))
    (data, opChanges)

/-- `applyDefault`: set each default key only where absent, recording it. -/
def applyDefault (data : GoMap) (defaultValues : JObj) (opChanges : JObj) :
    Except RuntimePanic (GoMap × JObj) :=
  defaultValues.foldlM
    (fun acc p =>
      match goLookup acc.1 p.1 with
      | some _ => pure acc
      | none => do
        let d ← goAssign acc.1 p.1 p.2
        pure (d, insertKey acc.2 p.1 p.2))
    (data, opChanges)

/-- The sentinel recorded for deleted keys. -/
def deletedSentinel : JValue := .str "<deleted>"

/-- `applyDelete`: remove each listed key that exists, recording it under
the deletion sentinel.  Never panics (nil-map lookups find nothing). -/
def applyDelete (data : GoMap) (deleteKeys : List String) (opChanges : JObj) :
    GoMap × JObj :=
  deleteKeys.foldl
    (fun acc k =>
      match goLookup acc.1 k with
      | some _ => (goDelete acc.1 k, insertKey acc.2 k deletedSentinel)
      | none => acc)
    (data, opChanges)

/-- One action's transformations, in source order: template (success copies
the whole resulting body into both `appliedValues` and `opChanges`), then
default, merge and delete, each followed by copying `opChanges` into
`appliedValues`.  Returns (data, appliedValues, opChanges, template-applied). -/
def runActionTransforms (jsonParse : JsonParse) (op : ActionExec)
    (tmpl : Option Render) (data : GoMap) (appliedValues : JObj) :
    Except RuntimePanic (GoMap × JObj × JObj × Bool) := do
  let (d0, av0, oc0, tmplApplied) ←
    if op.Template != "" then
      match tmpl with
      | some render => do
        let (d, ok) ← ExecuteTemplate render jsonParse data
        if ok then
          pure (d, copyAll appliedValues (d.getD []), copyAll [] (d.getD []), true)
        else
          pure (d, appliedValues, ([] : JObj), false)
      | none => pure (data, appliedValues, ([] : JObj), false)
    else
      pure (data, appliedValues, ([] : JObj), false)
  let (d1, oc1) ← if op.Default.isEmpty then pure (d0, oc0) else applyDefault d0 op.Default oc0
  let av1 := if op.Default.isEmpty then av0 else copyAll av0 oc1
  let (d2, oc2) ← if op.Merge.isEmpty then pure (d1, oc1) else applyMerge d1 op.Merge oc1
  let av2 := if op.Merge.isEmpty then av1 else copyAll av1 oc2
  let (d3, oc3) := if op.Delete.isEmpty then (d2, oc2) else applyDelete d2 op.Delete oc2
  let av3 := if op.Delete.isEmpty then av2 else copyAll av2 oc3
  pure (d3, av3, oc3, tmplApplied)

/-- The action loop: skip an action whose `when` predicate rejects the
current data; otherwise run its transformations, fold its recorded changes
into the overall state, and stop the phase if its `stop` flag is set.  `i`
is the absolute action index (for the template slice). -/
def processActionsLoop (jsonParse : JsonParse) (headers query : SMap)
    (templates : Templates) :
    List ActionExec → Nat → GoMap → JObj → Bool →
    Except RuntimePanic (Bool × GoMap × JObj)
  | [], _, data, appliedValues, anyApplied => .ok (anyApplied, data, appliedValues)
  | op :: rest, i, data, appliedValues, anyApplied =>
    if op.When.isSome && !(evalWhen op.When data headers query) then
      processActionsLoop jsonParse headers query templates rest (i + 1)
        data appliedValues anyApplied
    else
      match runActionTransforms jsonParse op (templates.getD i none) data appliedValues with
      | .error e => .error e
      | .ok (d, av, opChanges, tmplApplied) =>
        let anyApplied' := anyApplied || tmplApplied || !opChanges.isEmpty
        if op.Stop then .ok (anyApplied', d, av)
        else processActionsLoop jsonParse headers query templates rest (i + 1) d av anyApplied'

/-- `processActions`: apply a phase's actions to the data with their
compiled templates, returning the changed flag and the accumulated
applied-values map. -/
def processActions (jsonParse : JsonParse) (data : GoMap) (headers query : SMap)
    (operations : List ActionExec) (templates : Templates) :
    Except RuntimePanic (Bool × GoMap × JObj) :=
  processActionsLoop jsonParse headers query templates operations 0 data [] false

/-! ## Routes and route matching (config.Route, proxy.MatchRoutes) -/

/-- A route's compiled form: per-phase executable actions and the template
slices aligned with them. -/
structure CompiledRoute where
  OnRequest : List ActionExec
  OnResponse : List ActionExec
  OnRequestTemplates : Templates
  OnResponseTemplates : Templates

/-- `ProcessRequest` applies all request actions to the data. -/
def ProcessRequest (jsonParse : JsonParse) (data : GoMap) (headers query : SMap)
    (route : CompiledRoute) : Except RuntimePanic (Bool × GoMap × JObj) :=
  processActions jsonParse data headers query route.OnRequest route.OnRequestTemplates

/-- `ProcessResponse` applies all response actions to the data. -/
def ProcessResponse (jsonParse : JsonParse) (data : GoMap) (headers query : SMap)
    (route : CompiledRoute) : Except RuntimePanic (Bool × GoMap × JObj) :=
  processActions jsonParse data headers query route.OnResponse route.OnResponseTemplates

/-- A configured route: method and path patterns, optional target-path
rewrite, per-phase action lists and the compiled form (`ActionExec` mirrors
the declared `Action` field for field, so it is reused here). -/
structure Route where
  Methods : PatternField
  Paths : PatternField
  TargetPath : String
  OnRequest : List ActionExec
  OnResponse : List ActionExec
  Compiled : Option CompiledRoute

/-- Whether a route matches the request's method and path. -/
def routeMatches (method path : String) (r : Route) : Bool :=
  r.Methods.Matches method && r.Paths.Matches path

/-- The matching loop of `MatchRoutes`, from index `i` on: each matching
route is kept, paired with its original index, in declaration order. -/
def matchRoutesFrom (method path : String) : List Route → Nat → List (Route × Nat)
  | [], _ => []
  | r :: rest, i =>
    if routeMatches method path r then
      (r, i) :: matchRoutesFrom method path rest (i + 1)
    else
      matchRoutesFrom method path rest (i + 1)

/-- `MatchRoutes` returns the matching routes and their indices in order
(the Go function returns two aligned slices, modelled as one paired list). -/
def MatchRoutes (method path : String) (routes : List Route) : List (Route × Nat) :=
  matchRoutesFrom method path routes 0

/-! ## Response processing core (proxy.ModifyResponse loop) -/

/-- The per-route loop of `ModifyResponse`: routes without response actions
or without a compiled form are skipped; each other route's response actions
run against the cumulative data, and its applied values are folded into the
report (later routes overwrite earlier entries under the same key). -/
def applyResponseRoutes (jsonParse : JsonParse) (headers query : SMap) :
    List (Route × Nat) → GoMap → Bool → JObj →
    Except RuntimePanic (Bool × GoMap × JObj)
  | [], data, anyModified, appliedValues => .ok (anyModified, data, appliedValues)
  | (route, _) :: rest, data, anyModified, appliedValues =>
    match route.Compiled with
    | none => applyResponseRoutes jsonParse headers query rest data anyModified appliedValues
    | some compiled =>
      if route.OnResponse.isEmpty then
        applyResponseRoutes jsonParse headers query rest data anyModified appliedValues
      else
        match ProcessResponse jsonParse data headers query compiled with
        | .error e => .error e
        | .ok (modified, d, vals) =>
          applyResponseRoutes jsonParse headers query rest d
            (anyModified || modified) (copyAll appliedValues vals)

/-! ## Streaming Processor (proxy.ModifyStreamingResponse, per line) -/

/-- `json.Marshal` of a body map, abstract (`none` = marshal error). -/
abbrev JsonMarshal := GoMap → Option String

/-- The SSE data marker. -/
def ssePrefix : String := "data: "

/-- The per-route loop of the streaming processor: like the response loop,
but a route's applied values are folded into the report only when that
route changed something.  (The Go loop also skips nil route pointers;
routes are values here, so that defensive check has no counterpart.) -/
def applyStreamRoutes (jsonParse : JsonParse) (headers query : SMap) :
    List (Route × Nat) → GoMap → Bool → JObj →
    Except RuntimePanic (Bool × GoMap × JObj)
  | [], data, modified, appliedValues => .ok (modified, data, appliedValues)
  | (route, _) :: rest, data, modified, appliedValues =>
    match route.Compiled with
    | none => applyStreamRoutes jsonParse headers query rest data modified appliedValues
    | some compiled =>
      if route.OnResponse.isEmpty then
        applyStreamRoutes jsonParse headers query rest data modified appliedValues
      else
        match ProcessResponse jsonParse data headers query compiled with
        | .error e => .error e
        | .ok (changed, d, vals) =>
          if changed then
            applyStreamRoutes jsonParse headers query rest d true (copyAll appliedValues vals)
          else
            applyStreamRoutes jsonParse headers query rest d modified appliedValues

/-- One line of `ModifyStreamingResponse`: what is written to the pipe for
one scanned input line.  A blank line passes through as a bare newline; a
`data: `-prefixed line is unwrapped ([DONE] passes through verbatim); a
payload that does not parse as JSON passes through unchanged; otherwise the
routes run and the re-serialized object is emitted, the SSE prefix re-added
iff the original line had it, followed by a single newline (a marshal
failure falls back to the original line). -/
def processStreamLine (jsonParse : JsonParse) (jsonMarshal : JsonMarshal)
    (headers query : SMap) (routes : List (Route × Nat)) (line : String) :
    Except RuntimePanic String :=
  if line == "" then .ok "\n"
  else
    let isSSE := strHasPrefix line ssePrefix
    let jsonStr := if isSSE then strDropPrefix line ssePrefix else line
    if isSSE && jsonStr == "[DONE]" then .ok (line ++ "\n")
    else
      match jsonParse jsonStr with
      | none => .ok (line ++ "\n")
      | some data =>
        match applyStreamRoutes jsonParse headers query routes data false [] with
        | .error e => .error e
        | .ok (_, d, _) =>
          match jsonMarshal d with
          | none => .ok (line ++ "\n")
          | some modifiedJSON =>
            .ok ((if isSSE then ssePrefix else "") ++ modifiedJSON ++ "\n")

/-! ## Template function library: the default helper (config.TemplateFuncs) -/

/-- A Go `any` value as the template function library sees it: JSON-decoded
values are `float64` numbers, while template literals and other host values
can be `int` / `int64`. -/
inductive GoVal where
  | vnil
  | str (s : String)
  | float64 (x : Int)
  | int (n : Int)
  | int64 (n : Int)
  | bool (b : Bool)
  | slice (xs : List GoVal)
  | map (m : List (String × GoVal))

/-- The `default` template helper: the fallback for nil, then a type switch
over `string` / `float64` / `bool` zero values; every other value is
returned unchanged. -/
def defaultHelper (dflt val : GoVal) : GoVal :=
  match val with
  | .vnil => dflt
  | .str v => if v == "" then dflt else val
  | .float64 v => if v == 0 then dflt else val
  | .bool v => if !v then dflt else val
  | _ => val

/-! ## Concrete instances used in the theorems -/

/-- Substring containment over character lists (computable). -/
def charListInfix (sub : List Char) : List Char → Bool
  | [] => sub.isEmpty
  | c :: rest => sub.isPrefixOf (c :: rest) || charListInfix sub rest

/-- Substring containment for strings. -/
def strContains (s sub : String) : Bool := charListInfix sub.data s.data

/-- The behaviour of the compiled regex `(?i)prod`: unanchored,
case-insensitive containment of `prod`. -/
def demoMatchProd : String → Bool := fun s => strContains (strToLower s) "prod"

/-- The behaviour of the compiled regex `(?i).*`: matches everything. -/
def demoMatchAny : String → Bool := fun _ => true

/-- The behaviour of the compiled regex `(?i)POST`. -/
def demoMatchPost : String → Bool := fun s => strContains (strToLower s) "post"

/-- The behaviour of the compiled anchored regex `(?i)^/v1/chat$`. -/
def demoMatchChatPath : String → Bool := fun s => strToLower s == "/v1/chat"

/-- The pattern field `"prod"` after validation. -/
def prodPF : PatternField := ⟨["prod"], [demoMatchProd]⟩

/-- The pattern field `".*"` after validation. -/
def anyPF : PatternField := ⟨[".*"], [demoMatchAny]⟩

/-- `json.Unmarshal` into `map[string]any` on the inputs exercised here:
the literal `null` decodes to the nil map with no error, everything else
errors. -/
def demoParse : JsonParse := fun s => if s == "null" then some none else none

/-- The first action of the stop-flag scenario:
`merge{seen:1} when header X-Env matches prod`. -/
def stopScenarioOp1 : ActionExec :=
  ⟨some (.mk [] [] [("X-Env", prodPF)] [] [] none), "", [("seen", .num 1)], [], [], false⟩

/-- The second action: `delete[remove_me] + stop when body.remove_me
matches .*`. -/
def stopScenarioOp2 : ActionExec :=
  ⟨some (.mk [("remove_me", anyPF)] [] [] [] [] none), "", [], [], ["remove_me"], true⟩

/-- The third action, unreachable because of the stop flag:
`merge{unreachable:true}`. -/
def stopScenarioOp3 : ActionExec :=
  ⟨none, "", [("unreachable", .bool true)], [], [], false⟩

/-- The stop-flag scenario's input body `{keep:"x", remove_me:"y"}`. -/
def stopScenarioBody : GoMap := some [("keep", .str "x"), ("remove_me", .str "y")]

/-- The stop-flag scenario's request headers. -/
def stopScenarioHeaders : SMap := [("X-Env", "prod")]

/-- A response action merging `{first: true}` (multi-route scenario). -/
def firstMergeOp : ActionExec := ⟨none, "", [("first", .bool true)], [], [], false⟩

/-- A response action merging `{second: "yes"}` (multi-route scenario). -/
def secondMergeOp : ActionExec := ⟨none, "", [("second", .str "yes")], [], [], false⟩

/-- The first configured route of the multi-route scenario. -/
def firstRoute : Route :=
  ⟨⟨["POST"], [demoMatchPost]⟩, ⟨["^/v1/chat$"], [demoMatchChatPath]⟩, "",
   [], [firstMergeOp], some ⟨[], [firstMergeOp], [], [none]⟩⟩

/-- The second configured route of the multi-route scenario. -/
def secondRoute : Route :=
  ⟨⟨["POST"], [demoMatchPost]⟩, ⟨["^/v1/chat$"], [demoMatchChatPath]⟩, "",
   [], [secondMergeOp], some ⟨[], [secondMergeOp], [], [none]⟩⟩

/-- A route whose only response action merges `{x: true}`; running it
against the nil map decoded from a `null` body exercises the nil-map
assignment. -/
def mergeRoute : Route :=
  ⟨⟨["POST"], [demoMatchPost]⟩, ⟨["^/v1/chat$"], [demoMatchChatPath]⟩, "",
   [], [⟨none, "", [("x", .bool true)], [], [], false⟩],
   some ⟨[], [⟨none, "", [("x", .bool true)], [], [], false⟩], [], [none]⟩⟩

/-- `json.Unmarshal` on the formatting-difference demo: the object text
`{ }` (written with escaped braces) parses to the empty object. -/
def demoParseObj : JsonParse := fun s => if s == "\x7b \x7d" then some (some []) else none

/-- `json.Marshal` on the formatting-difference demo: the empty object
serializes compactly. -/
def demoMarshalObj : JsonMarshal := fun _ => some "\x7b\x7d"

/-- A compiled template whose execution always renders the text `R`
(demo for the template-success scenario). -/
def demoRender : Render := fun _ => some "R"

/-- `json.Unmarshal` on the template-success demo: the rendered text `R`
parses to `{model:"llama3", temperature:0, max_tokens:100}`. -/
def demoParseR : JsonParse := fun s =>
  if s == "R" then
    some (some [("model", .str "llama3"), ("temperature", .num 0), ("max_tokens", .num 100)])
  else none

/-- A render function that always fails (template execution error). -/
def demoRenderFail : Render := fun _ => none

/-! ## Association-list map lemmas -/

/-- The keys of an association list. -/
def keysOf (m : List (String × α)) : List String := m.map Prod.fst

theorem eraseKey_of_not_mem {m : List (String × α)} {k : String}
    (h : k ∉ keysOf m) : eraseKey m k = m := by
  induction m with
  | nil => rfl
  | cons p rest ih =>
    rw [keysOf, List.map_cons, List.mem_cons, not_or] at h
    have h1 : (p.1 != k) = true := by
      rw [bne_iff_ne]
      exact fun hk => h.1 hk.symm
    rw [eraseKey, List.filter_cons, if_pos h1]
    have h2 := ih h.2
    rw [eraseKey] at h2
    rw [h2]

theorem insertKey_of_not_mem {m : List (String × α)} {k : String} {v : α}
    (h : k ∉ keysOf m) : insertKey m k v = m ++ [(k, v)] := by
  simp [insertKey, eraseKey_of_not_mem h]

theorem copyAll_eq_append {src dst : List (String × α)}
    (hnodup : (keysOf src).Nodup)
    (hdisj : ∀ k ∈ keysOf src, k ∉ keysOf dst) :
    copyAll dst src = dst ++ src := by
  induction src generalizing dst with
  | nil => simp [copyAll]
  | cons p rest ih =>
    rw [keysOf, List.map_cons, List.nodup_cons] at hnodup
    have hp : p.1 ∉ keysOf dst := hdisj p.1 (by simp [keysOf])
    have hdisj2 : ∀ k ∈ keysOf rest, k ∉ keysOf (dst ++ [p]) := by
      intro k hk hmem
      rw [keysOf, List.map_append, List.mem_append] at hmem
      rcases hmem with hd | hone
      · exact hdisj k (by rw [keysOf, List.map_cons, List.mem_cons]; exact Or.inr hk) hd
      · simp only [List.map_cons, List.map_nil, List.mem_cons, List.not_mem_nil, or_false] at hone
        rw [hone] at hk
        exact hnodup.1 hk
    have step : copyAll dst (p :: rest) = copyAll (dst ++ [p]) rest := by
      simp [copyAll, insertKey_of_not_mem hp]
    rw [step, ih hnodup.2 hdisj2, List.append_assoc, List.singleton_append]

theorem copyAll_nil {src : List (String × α)} (hnodup : (keysOf src).Nodup) :
    copyAll [] src = src := by
  rw [copyAll_eq_append hnodup (by simp [keysOf])]
  simp

theorem foldlM_goAssign (fields : JObj) (start : JObj) :
    fields.foldlM (fun m p => goAssign m p.1 p.2) (some start : GoMap)
      = .ok (some (copyAll start fields)) := by
  induction fields generalizing start with
  | nil => rfl
  | cons p rest ih =>
    simp only [List.foldlM_cons, goAssign, copyAll, List.foldl_cons]
    exact ih (insertKey start p.1 p.2)

/-! # Claim theorems -/

/-- C1: over body `{keep:"x", remove_me:"y"}` with header `X-Env: prod`,
the pipeline `[merge{seen:1} when header X-Env~=prod; delete[remove_me]+stop
when body.remove_me~=.*; merge{unreachable:true}]` yields body
`{keep:"x", seen:1}` and applied-values `{seen:1, remove_me:"<deleted>"}`,
with `unreachable` in neither; and in general a `stop` flag on any action
that was not skipped halts the phase's remaining actions, whether or not
that action changed anything. -/
theorem processActions_stop_halts_remaining :
    (processActions demoParse stopScenarioBody stopScenarioHeaders []
        [stopScenarioOp1, stopScenarioOp2, stopScenarioOp3] []
      = .ok (true, some [("keep", .str "x"), ("seen", .num 1)],
             [("seen", .num 1), ("remove_me", .str "<deleted>")]))
    ∧ (∀ (jsonParse : JsonParse) (headers query : SMap) (templates : Templates)
        (op : ActionExec) (rest : List ActionExec) (i : Nat)
        (data : GoMap) (appliedValues : JObj) (anyApplied : Bool),
        evalWhen op.When data headers query = true →
        op.Stop = true →
        processActionsLoop jsonParse headers query templates
            (op :: rest) i data appliedValues anyApplied
          = processActionsLoop jsonParse headers query templates
              [op] i data appliedValues anyApplied) := by
  constructor
  · rfl
  · intro jsonParse headers query templates op rest i data appliedValues anyApplied hw hs
    simp only [processActionsLoop, hw, Bool.not_true, Bool.and_false, Bool.false_eq_true,
      if_false]
    cases runActionTransforms jsonParse op (templates.getD i none) data appliedValues with
    | error e => rfl
    | ok r =>
      obtain ⟨d, av, oc, ta⟩ := r
      simp [hs]

/-- C6 (code bug): a body consisting of the JSON literal `null` decodes to
the nil map without error, and a matched route's merge action then assigns
into that nil map — a runtime panic — both in request processing
(`processActions`) and for a streaming line `null`; the spec says nothing
in the core panics and recoverable failures degrade to pass-through. -/
theorem null_body_merge_panics :
    processActions demoParse none [] []
        [⟨none, "", [("x", .bool true)], [], [], false⟩] [] = .error .nilMapAssign
    ∧ processStreamLine demoParse demoMarshalObj [] [] [(mergeRoute, 0)] "null"
        = .error .nilMapAssign :=
  ⟨rfl, rfl⟩

/-- C9 counterexample: `default(fallback, value)` with a Go `int` zero —
a zero number — returns the value, not the fallback, because the type
switch only treats `string`, `float64` and `bool` zero values. -/
theorem default_helper_int_zero_counterexample :
    defaultHelper (.str "fallback") (.int 0) = .int 0 ∧
    defaultHelper (.str "fallback") (.int 0) ≠ .str "fallback" := by
  refine ⟨rfl, ?_⟩
  intro h
  exact GoVal.noConfusion h

/-- C9 (amended): `default(fallback, value)` returns the fallback exactly
when the value is nil, the empty string, the `float64` zero, or `false`;
every other value — including zeroes of Go integer types — is returned
unchanged. -/
theorem default_helper_zero_value_characterization :
    ∀ (dflt : GoVal) (s : String) (x n m : Int) (xs : List GoVal)
      (fields : List (String × GoVal)),
      defaultHelper dflt .vnil = dflt
      ∧ defaultHelper dflt (.str "") = dflt
      ∧ defaultHelper dflt (.float64 0) = dflt
      ∧ defaultHelper dflt (.bool false) = dflt
      ∧ (s ≠ "" → defaultHelper dflt (.str s) = .str s)
      ∧ (x ≠ 0 → defaultHelper dflt (.float64 x) = .float64 x)
      ∧ defaultHelper dflt (.bool true) = .bool true
      ∧ defaultHelper dflt (.int n) = .int n
      ∧ defaultHelper dflt (.int64 m) = .int64 m
      ∧ defaultHelper dflt (.slice xs) = .slice xs
      ∧ defaultHelper dflt (.map fields) = .map fields := by
  intro dflt s x n m xs fields
  refine ⟨rfl, rfl, rfl, rfl, ?_, ?_, rfl, rfl, rfl, rfl, rfl⟩
  · intro hs
    simp [defaultHelper, hs]
  · intro hx
    simp [defaultHelper, hx]

/-- C3: when a compiled template's execution succeeds and the rendered text
parses as JSON with (unique) keys `res`, the body's entire top-level key
set is replaced by the rendered object — old keys not in the template
output are discarded — and the action pipeline records exactly the keys of
the resulting body, with their rendered values, into the applied-values
map (never a generic marker). -/
theorem template_success_replaces_body_and_records_keys :
    ∀ (jsonParse : JsonParse) (render : Render) (b : JObj) (rendered : String)
      (res : GoMap) (headers query : SMap),
      render (some b) = some rendered →
      jsonParse rendered = some res →
      (keysOf (res.getD [])).Nodup →
      ExecuteTemplate render jsonParse (some b) = .ok (some (res.getD []), true)
      ∧ processActions jsonParse (some b) headers query
          [⟨none, "tpl", [], [], [], false⟩] [some render]
        = .ok (true, some (res.getD []), res.getD []) := by
  intro jsonParse render b rendered res headers query hr hp hnodup
  have hclear : clearAndCopy (some b) (res.getD []) = .ok (some (res.getD [])) := by
    show (res.getD []).foldlM (fun acc p => goAssign acc p.1 p.2) (some []) = _
    rw [foldlM_goAssign, copyAll_nil hnodup]
  have hex : ExecuteTemplate render jsonParse (some b) = .ok (some (res.getD []), true) := by
    simp only [ExecuteTemplate, hr, hp, hclear]
    rfl
  refine ⟨hex, ?_⟩
  simp [processActions, processActionsLoop, runActionTransforms, hex, List.getD_cons_zero,
    bind, Except.bind, pure, Except.pure, copyAll_nil hnodup]

/-- C3 witness: the template scenario of the spec, rendering
`{model:"llama3", temperature:0, max_tokens:100}` over a body holding
`model` and an `old` key: the old key is discarded and the applied-values
map holds all three literal rendered keys. -/
theorem template_success_replaces_body_and_records_keys_witness :
    ExecuteTemplate demoRender demoParseR (some [("model", .str "llama3"), ("old", .bool true)])
      = .ok (some [("model", .str "llama3"), ("temperature", .num 0), ("max_tokens", .num 100)], true)
    ∧ processActions demoParseR (some [("model", .str "llama3"), ("old", .bool true)]) [] []
        [⟨none, "tpl", [], [], [], false⟩] [some demoRender]
      = .ok (true,
             some [("model", .str "llama3"), ("temperature", .num 0), ("max_tokens", .num 100)],
             [("model", .str "llama3"), ("temperature", .num 0), ("max_tokens", .num 100)]) :=
  template_success_replaces_body_and_records_keys demoParseR demoRender
    [("model", .str "llama3"), ("old", .bool true)] "R"
    (some [("model", .str "llama3"), ("temperature", .num 0), ("max_tokens", .num 100)])
    [] [] rfl rfl (by decide)

/-- C4: when template rendering errors, or the rendered text does not parse
as JSON, `ExecuteTemplate` reports no success and leaves the body exactly
as it was, and the pipeline records nothing for that action and simply
continues with the remaining actions — the transaction is never aborted. -/
theorem template_failure_leaves_body_unchanged :
    ∀ (jsonParse : JsonParse) (render : Render) (data : GoMap)
      (headers query : SMap) (rest : List ActionExec) (tmpls : Templates),
      (render data = none ∨ ∃ rendered, render data = some rendered ∧ jsonParse rendered = none) →
      ExecuteTemplate render jsonParse data = .ok (data, false)
      ∧ processActions jsonParse data headers query
          (⟨none, "tpl", [], [], [], false⟩ :: rest) (some render :: tmpls)
        = processActionsLoop jsonParse headers query (some render :: tmpls) rest 1 data [] false := by
  intro jsonParse render data headers query rest tmpls hfail
  have hex : ExecuteTemplate render jsonParse data = .ok (data, false) := by
    rcases hfail with h | ⟨rendered, hrend, hparse⟩
    · rw [ExecuteTemplate, h]
    · simp only [ExecuteTemplate, hrend, hparse]
  refine ⟨hex, ?_⟩
  simp [processActions, processActionsLoop, runActionTransforms, hex, List.getD_cons_zero,
    bind, Except.bind, pure, Except.pure]

/-- C4 witness: a failing render over the body `{}` reports no success,
leaves the body unchanged and processing returns normally. -/
theorem template_failure_leaves_body_unchanged_witness :
    ExecuteTemplate demoRenderFail demoParse (some []) = .ok (some [], false)
    ∧ processActions demoParse (some []) [] []
        [⟨none, "tpl", [], [], [], false⟩] [some demoRenderFail]
      = processActionsLoop demoParse [] [] [some demoRenderFail] [] 1 (some []) [] false :=
  template_failure_leaves_body_unchanged demoParse demoRenderFail (some []) [] [] [] []
    (Or.inl rfl)

/-- The streaming processor's JSON case: a non-blank, non-sentinel line
whose payload parses emits the marshalled routed data, prefixed iff the
line was SSE-prefixed, plus one newline. -/
theorem processStreamLine_json_emit (jsonParse : JsonParse) (jsonMarshal : JsonMarshal)
    (headers query : SMap) (routes : List (Route × Nat)) (line : String) (d : GoMap)
    (m : Bool) (d2 : GoMap) (av : JObj) (out : String) (hne : line ≠ "")
    (hnd : strHasPrefix line ssePrefix = true → strDropPrefix line ssePrefix ≠ "[DONE]")
    (hparse : jsonParse (if strHasPrefix line ssePrefix then strDropPrefix line ssePrefix else line) = some d)
    (happly : applyStreamRoutes jsonParse headers query routes d false [] = .ok (m, d2, av))
    (hmarshal : jsonMarshal d2 = some out) :
    processStreamLine jsonParse jsonMarshal headers query routes line
      = .ok ((if strHasPrefix line ssePrefix then ssePrefix else "") ++ (out ++ "\n")) := by
  have h0 : (line == "") = false := by simp [hne]
  rw [processStreamLine]
  simp only [h0, Bool.false_eq_true, if_false]
  cases hsse : strHasPrefix line ssePrefix with
  | false =>
    simp only [hsse, Bool.false_eq_true, if_false] at hparse ⊢
    simp [hparse, happly, hmarshal]
  | true =>
    simp only [hsse, if_true] at hparse ⊢
    have hd : (strDropPrefix line ssePrefix == "[DONE]") = false := by
      simp [hnd hsse]
    simp [hd, hparse, happly, hmarshal, String.append_assoc]

/-- C5: per streaming line, in arrival order — a blank line re-emits a bare
newline; the `data: [DONE]` sentinel line, and any line whose payload does
not parse as JSON, re-emit byte-identical followed by a newline; a line
whose payload parses as a JSON object re-emits the re-serialized object
with the `data: ` prefix re-added iff the original line had it, followed
by a single newline — no prefix is ever added to an originally-bare line. -/
theorem streaming_line_emission_cases :
    ∀ (jsonParse : JsonParse) (jsonMarshal : JsonMarshal) (headers query : SMap)
      (routes : List (Route × Nat)),
      (processStreamLine jsonParse jsonMarshal headers query routes "" = .ok "\n")
      ∧ (processStreamLine jsonParse jsonMarshal headers query routes "data: [DONE]"
          = .ok ("data: [DONE]" ++ "\n"))
      ∧ (∀ line, line ≠ "" →
          jsonParse (if strHasPrefix line ssePrefix then strDropPrefix line ssePrefix else line) = none →
          processStreamLine jsonParse jsonMarshal headers query routes line = .ok (line ++ "\n"))
      ∧ (∀ (line : String) (d : GoMap) (m : Bool) (d2 : GoMap) (av : JObj) (out : String),
          line ≠ "" →
          (strHasPrefix line ssePrefix = true → strDropPrefix line ssePrefix ≠ "[DONE]") →
          jsonParse (if strHasPrefix line ssePrefix then strDropPrefix line ssePrefix else line) = some d →
          applyStreamRoutes jsonParse headers query routes d false [] = .ok (m, d2, av) →
          jsonMarshal d2 = some out →
          processStreamLine jsonParse jsonMarshal headers query routes line
            = .ok ((if strHasPrefix line ssePrefix then ssePrefix else "") ++ (out ++ "\n"))) := by
  intro jsonParse jsonMarshal headers query routes
  refine ⟨rfl, rfl, ?_, ?_⟩
  · intro line hne hparse
    have h0 : (line == "") = false := by simp [hne]
    rw [processStreamLine]
    simp only [h0, Bool.false_eq_true, if_false]
    cases hsse : strHasPrefix line ssePrefix with
    | false =>
      simp only [hsse, Bool.false_eq_true, if_false] at hparse ⊢
      simp [hparse]
    | true =>
      simp only [hsse, if_true] at hparse ⊢
      by_cases hd : (strDropPrefix line ssePrefix == "[DONE]") = true
      · simp [hd]
      · rw [Bool.not_eq_true] at hd
        simp [hd, hparse]
  · intro line d m d2 av out hne hnd hparse happly hmarshal
    exact processStreamLine_json_emit jsonParse jsonMarshal headers query routes line d
      m d2 av out hne hnd hparse happly hmarshal

/-- A single matched route without response actions leaves a streaming
chunk's data untouched and reports nothing. -/
theorem applyStreamRoutes_noop (jsonParse : JsonParse) (headers query : SMap)
    (route : Route) (i : Nat) (d : GoMap) (h : route.OnResponse = []) :
    applyStreamRoutes jsonParse headers query [(route, i)] d false [] = .ok (false, d, []) := by
  cases hc : route.Compiled <;> simp [applyStreamRoutes, hc, h]

/-- C10 (implicit): a streaming line whose payload parses as a JSON object
is re-serialized and re-emitted even when no route matched, or when a
matched route has no response actions; only its serialized form is
guaranteed, not the original bytes — witnessed by a spaced object text
re-emitted compactly. -/
theorem streaming_json_lines_reserialized :
    ∀ (jsonParse : JsonParse) (jsonMarshal : JsonMarshal) (headers query : SMap),
      (∀ (line : String) (d : GoMap) (out : String), line ≠ "" →
        (strHasPrefix line ssePrefix = true → strDropPrefix line ssePrefix ≠ "[DONE]") →
        jsonParse (if strHasPrefix line ssePrefix then strDropPrefix line ssePrefix else line) = some d →
        jsonMarshal d = some out →
        (processStreamLine jsonParse jsonMarshal headers query [] line
          = .ok ((if strHasPrefix line ssePrefix then ssePrefix else "") ++ (out ++ "\n"))
         ∧ ∀ (route : Route) (i : Nat), route.OnResponse = [] →
            processStreamLine jsonParse jsonMarshal headers query [(route, i)] line
              = .ok ((if strHasPrefix line ssePrefix then ssePrefix else "") ++ (out ++ "\n"))))
      ∧ (processStreamLine demoParseObj demoMarshalObj headers query [] "\x7b \x7d"
          = .ok "\x7b\x7d\n"
         ∧ "\x7b\x7d\n" ≠ "\x7b \x7d" ++ "\n") := by
  intro jsonParse jsonMarshal headers query
  constructor
  · intro line d out hne hnd hparse hmarshal
    constructor
    · exact processStreamLine_json_emit jsonParse jsonMarshal headers query [] line d
        false d [] out hne hnd hparse rfl hmarshal
    · intro route i hor
      exact processStreamLine_json_emit jsonParse jsonMarshal headers query [(route, i)]
        line d false d [] out hne hnd hparse
        (applyStreamRoutes_noop jsonParse headers query route i d hor) hmarshal
  · exact ⟨rfl, by decide⟩

/-- Membership in the matching loop from start index `s`: exactly the
routes whose method and path patterns match, at their original indices. -/
theorem mem_matchRoutesFrom (method path : String) :
    ∀ (l : List Route) (s : Nat) (r : Route) (i : Nat),
      (r, i) ∈ matchRoutesFrom method path l s ↔
        ((∃ j, i = s + j ∧ l.get? j = some r) ∧ routeMatches method path r = true) := by
  intro l
  induction l with
  | nil =>
    intro s r i
    simp [matchRoutesFrom]
  | cons a rest ih =>
    intro s r i
    by_cases hm : routeMatches method path a = true
    · rw [matchRoutesFrom, if_pos hm]
      constructor
      · intro hmem
        rcases List.mem_cons.mp hmem with heq | hrec
        · rw [Prod.mk.injEq] at heq
          obtain ⟨hr, hi⟩ := heq
          subst hr
          subst hi
          exact ⟨⟨0, by omega, rfl⟩, hm⟩
        · obtain ⟨⟨j, hi, hg⟩, hmm⟩ := (ih (s + 1) r i).mp hrec
          exact ⟨⟨j + 1, by omega, by simpa using hg⟩, hmm⟩
      · rintro ⟨⟨j, hi, hg⟩, hmm⟩
        cases j with
        | zero =>
          rw [List.get?_cons_zero] at hg
          injection hg with hg
          subst hg
          have : i = s := by omega
          subst this
          exact List.mem_cons.mpr (Or.inl rfl)
        | succ j =>
          rw [List.get?_cons_succ] at hg
          exact List.mem_cons.mpr (Or.inr ((ih (s + 1) r i).mpr ⟨⟨j, by omega, hg⟩, hmm⟩))
    · rw [matchRoutesFrom, if_neg hm]
      constructor
      · intro hrec
        obtain ⟨⟨j, hi, hg⟩, hmm⟩ := (ih (s + 1) r i).mp hrec
        exact ⟨⟨j + 1, by omega, by simpa using hg⟩, hmm⟩
      · rintro ⟨⟨j, hi, hg⟩, hmm⟩
        cases j with
        | zero =>
          rw [List.get?_cons_zero] at hg
          injection hg with hg
          subst hg
          exact absurd hmm hm
        | succ j =>
          rw [List.get?_cons_succ] at hg
          exact (ih (s + 1) r i).mpr ⟨⟨j, by omega, hg⟩, hmm⟩

/-- Every pair the matching loop emits carries an index at or after the
loop's start index. -/
theorem matchRoutesFrom_index_lb (method path : String) :
    ∀ (l : List Route) (s : Nat) (x : Route × Nat),
      x ∈ matchRoutesFrom method path l s → s ≤ x.2 := by
  intro l
  induction l with
  | nil =>
    intro s x h
    simp [matchRoutesFrom] at h
  | cons a rest ih =>
    intro s x h
    by_cases hm : routeMatches method path a = true
    · rw [matchRoutesFrom, if_pos hm] at h
      rcases List.mem_cons.mp h with heq | hrec
      · subst heq
        exact Nat.le_refl s
      · have := ih (s + 1) x hrec
        omega
    · rw [matchRoutesFrom, if_neg hm] at h
      have := ih (s + 1) x h
      omega

/-- The matching loop emits strictly increasing indices: declaration
order, with no first-match-wins cut-off. -/
theorem matchRoutesFrom_pairwise (method path : String) :
    ∀ (l : List Route) (s : Nat),
      List.Pairwise (fun x y : Route × Nat => x.2 < y.2) (matchRoutesFrom method path l s) := by
  intro l
  induction l with
  | nil =>
    intro s
    simp [matchRoutesFrom]
  | cons a rest ih =>
    intro s
    by_cases hm : routeMatches method path a = true
    · rw [matchRoutesFrom, if_pos hm]
      refine List.Pairwise.cons ?_ (ih (s + 1))
      intro y hy
      have := matchRoutesFrom_index_lb method path rest (s + 1) y hy
      simp only []
      omega
    · rw [matchRoutesFrom, if_neg hm]
      exact ih (s + 1)

/-- C7: `MatchRoutes` returns, in declaration order, exactly the routes
whose method and path patterns match, each with its original index; and
when several matched routes carry response actions they apply
cumulatively in that order — route 1's `first:true` and route 2's
`second:"yes"` both land in the final body next to the untouched
original key. -/
theorem matchRoutes_exact_and_ordered_with_cumulative_apply :
    ∀ (method path : String) (routes : List Route) (r : Route) (i : Nat),
      ((r, i) ∈ MatchRoutes method path routes ↔
        routes.get? i = some r ∧ routeMatches method path r = true)
      ∧ List.Pairwise (fun x y : Route × Nat => x.2 < y.2) (MatchRoutes method path routes)
      ∧ (MatchRoutes "POST" "/v1/chat" [firstRoute, secondRoute]
          = [(firstRoute, 0), (secondRoute, 1)]
         ∧ applyResponseRoutes demoParse [] [] [(firstRoute, 0), (secondRoute, 1)]
             (some [("original", .bool true)]) false []
           = .ok (true,
                  some [("original", .bool true), ("first", .bool true), ("second", .str "yes")],
                  [("first", .bool true), ("second", .str "yes")])) := by
  intro method path routes r i
  refine ⟨?_, matchRoutesFrom_pairwise method path routes 0, rfl, rfl⟩
  rw [MatchRoutes, mem_matchRoutesFrom]
  constructor
  · rintro ⟨⟨j, hi, hg⟩, hm⟩
    have : j = i := by omega
    subst this
    exact ⟨hg, hm⟩
  · rintro ⟨hg, hm⟩
    exact ⟨⟨i, by omega, hg⟩, hm⟩


/-- Successful validation compiles each pattern, in order, with the
implicit case-insensitive flag. -/
theorem compilePatterns_sound (regexpCompile : String → Option (String → Bool)) :
    ∀ (pats : List String) (res : List (String → Bool)),
      compilePatterns regexpCompile pats = some res →
      List.Forall₂ (fun pat re => regexpCompile (regexFlags ++ pat) = some re) pats res := by
  intro pats
  induction pats with
  | nil =>
    intro res h
    rw [compilePatterns] at h
    injection h with h
    subst h
    exact List.Forall₂.nil
  | cons pat rest ih =>
    intro res h
    rw [compilePatterns] at h
    cases hc : regexpCompile (regexFlags ++ pat) with
    | none => rw [hc] at h; exact absurd h (by simp)
    | some re =>
      rw [hc] at h
      cases hr : compilePatterns regexpCompile rest with
      | none => rw [hr] at h; exact absurd h (by simp)
      | some tail =>
        rw [hr] at h
        injection h with h
        subst h
        exact List.Forall₂.cons hc (ih tail hr)

/-- C8: `Matches(P, s)` is true iff at least one pattern of `P` matches
`s` under its compiled case-insensitive form (`(?i)` is prepended by
`Validate`), and `Matches` of an empty pattern set is always false. -/
theorem patternField_matches_iff_any_pattern :
    ∀ (regexpCompile : String → Option (String → Bool)) (p p2 : PatternField) (s : String),
      (p.Compiled = [] → p.Matches s = false)
      ∧ (p.Validate regexpCompile = some p2 →
          p2.Patterns = p.Patterns
          ∧ (p2.Matches s = true ↔ ∃ (i : Nat) (pat : String) (re : String → Bool),
              p.Patterns.get? i = some pat
              ∧ regexpCompile (regexFlags ++ pat) = some re
              ∧ re s = true)
          ∧ (p.Patterns = [] → p2.Matches s = false)) := by
  intro regexpCompile p p2 s
  constructor
  · intro h
    simp [PatternField.Matches, h]
  · intro hv
    rw [PatternField.Validate] at hv
    obtain ⟨compiled, hc, hp2⟩ := Option.map_eq_some'.mp hv
    have hfa := compilePatterns_sound regexpCompile p.Patterns compiled hc
    have hlen : p.Patterns.length = compiled.length := List.Forall₂.length_eq hfa
    obtain ⟨p2pats, p2comp⟩ := p2
    rw [PatternField.mk.injEq] at hp2
    obtain ⟨hpats, hcomp⟩ := hp2
    subst hpats
    subst hcomp
    refine ⟨rfl, ?_, ?_⟩
    · show (compiled.any fun re => re s) = true ↔ _
      rw [List.any_eq_true]
      constructor
      · rintro ⟨re, hre, hres⟩
        obtain ⟨i, hi⟩ := List.mem_iff_get.mp hre
        have hlt : i.val < p.Patterns.length := by omega
        have hrel := (List.forall₂_iff_get.mp hfa).2 i.val hlt i.isLt
        refine ⟨i.val, p.Patterns.get ⟨i.val, hlt⟩, re, List.get?_eq_get hlt, ?_, hres⟩
        rw [← hi]
        exact hrel
      · rintro ⟨i, pat, re, hget, hcomp, hres⟩
        have hilt : i < p.Patterns.length := (List.get?_eq_some.mp hget).choose
        have hrel := (List.forall₂_iff_get.mp hfa).2 i hilt (by omega)
        have hpat : p.Patterns.get ⟨i, hilt⟩ = pat := by
          have h3 := List.get?_eq_get hilt
          rw [hget] at h3
          injection h3 with h4
          exact h4.symm
        rw [hpat, hcomp] at hrel
        injection hrel with hrel
        refine ⟨compiled.get ⟨i, by omega⟩, List.get_mem compiled i (by omega), ?_⟩
        rw [← hrel]
        exact hres
    · intro hnil
      have hce : compiled = [] := by
        rw [hnil] at hlen
        exact List.length_eq_zero.mp hlen.symm
      show (compiled.any fun re => re s) = false
      simp [hce]


/-- The `and` loop holds iff every sub-expression evaluates true. -/
theorem evalForAll_iff (l : List BoolExpr) (body : GoMap) (headers query : SMap) :
    evalForAll l body headers query = true ↔
      ∀ e ∈ l, BoolExpr.Evaluate e body headers query = true := by
  induction l with
  | nil => simp [evalForAll]
  | cons e es ih => simp [evalForAll, Bool.and_eq_true, ih, List.forall_mem_cons]

/-- The `or` loop holds iff some sub-expression evaluates true. -/
theorem evalExists_iff (l : List BoolExpr) (body : GoMap) (headers query : SMap) :
    evalExists l body headers query = true ↔
      ∃ e ∈ l, BoolExpr.Evaluate e body headers query = true := by
  induction l with
  | nil => simp [evalExists]
  | cons e es ih => simp [evalExists, Bool.or_eq_true, ih]

/-- A leaf map matches iff every named field is present and matches. -/
theorem leafMapOk_iff (m : List (String × PatternField)) (input : SMap) :
    leafMapOk m input = true ↔
      ∀ kp ∈ m, ∃ v, lookupKey input kp.1 = some v ∧ kp.2.Matches v = true := by
  rw [leafMapOk, List.all_eq_true]
  constructor
  · intro h kp hk
    have h2 := h kp hk
    revert h2
    show (match lookupKey input kp.1 with
          | some actualValue => kp.2.Matches actualValue
          | none => false) = true → _
    cases hl : lookupKey input kp.1 with
    | none => intro h2; exact absurd h2 (by simp)
    | some v => intro h2; exact ⟨v, rfl, h2⟩
  · intro h kp hk
    obtain ⟨v, hv, hm⟩ := h kp hk
    show (match lookupKey input kp.1 with
          | some actualValue => kp.2.Matches actualValue
          | none => false) = true
    rw [hv]
    exact hm

/-- The header leaf map matches iff every named header, looked up with a
lower-cased key, is present and matches. -/
theorem headersAll_iff (m : List (String × PatternField)) (input : SMap) :
    (m.all fun p =>
      match lookupKey input (strToLower p.1) with
      | some actualValue => p.2.Matches actualValue
      | none => false) = true ↔
      ∀ kp ∈ m, ∃ v, lookupKey input (strToLower kp.1) = some v ∧ kp.2.Matches v = true := by
  rw [List.all_eq_true]
  constructor
  · intro h kp hk
    have h2 := h kp hk
    revert h2
    show (match lookupKey input (strToLower kp.1) with
          | some actualValue => kp.2.Matches actualValue
          | none => false) = true → _
    cases hl : lookupKey input (strToLower kp.1) with
    | none => intro h2; exact absurd h2 (by simp)
    | some v => intro h2; exact ⟨v, rfl, h2⟩
  · intro h kp hk
    obtain ⟨v, hv, hm⟩ := h kp hk
    show (match lookupKey input (strToLower kp.1) with
          | some actualValue => kp.2.Matches actualValue
          | none => false) = true
    rw [hv]
    exact hm

/-- C2: a nil predicate and an entirely empty node always evaluate true;
a node evaluates true iff every named body/query/header field is present
in the (stringified body / lower-cased header) input and matches its
pattern — absence is a non-match — and every `and` sub-node is true, and
when `or` is present some sub-node is true, and a `not` sub-node is false;
all present clauses combine by logical AND. -/
theorem boolExpr_evaluate_characterization :
    ∀ (bodyM queryM headersM : List (String × PatternField))
      (andL orL : List BoolExpr) (notO : Option BoolExpr)
      (body : GoMap) (headers query : SMap),
      (evalWhen none body headers query = true)
      ∧ (BoolExpr.Evaluate (.mk [] [] [] [] [] none) body headers query = true)
      ∧ (BoolExpr.Evaluate (.mk bodyM queryM headersM andL orL notO) body headers query = true ↔
          ((∀ kp ∈ bodyM, ∃ v,
              lookupKey (toStringMap (body.getD [])) kp.1 = some v ∧ kp.2.Matches v = true)
           ∧ (∀ kp ∈ queryM, ∃ v, lookupKey query kp.1 = some v ∧ kp.2.Matches v = true)
           ∧ (∀ kp ∈ headersM, ∃ v,
              lookupKey (normalizeHeaders headers) (strToLower kp.1) = some v
                ∧ kp.2.Matches v = true)
           ∧ (∀ sub ∈ andL, BoolExpr.Evaluate sub body headers query = true)
           ∧ (orL ≠ [] → ∃ sub ∈ orL, BoolExpr.Evaluate sub body headers query = true)
           ∧ (∀ n, notO = some n → BoolExpr.Evaluate n body headers query = false))) := by
  intro bodyM queryM headersM andL orL notO body headers query
  refine ⟨rfl, rfl, ?_⟩
  rw [BoolExpr.Evaluate.eq_def]
  have hor : (orL.isEmpty || evalExists orL body headers query) = true ↔
      (orL ≠ [] → ∃ sub ∈ orL, BoolExpr.Evaluate sub body headers query = true) := by
    cases orL with
    | nil => simp
    | cons e es => simp [evalExists_iff]
  have hnot : (match notO with
      | some n => !(BoolExpr.Evaluate n body headers query)
      | none => true) = true ↔
      (∀ n, notO = some n → BoolExpr.Evaluate n body headers query = false) := by
    cases notO with
    | none => simp
    | some n => simp [Bool.not_eq_true']
  rw [Bool.and_eq_true, Bool.and_eq_true, Bool.and_eq_true, evaluateLeafMatchers,
    Bool.and_eq_true, Bool.and_eq_true, leafMapOk_iff, leafMapOk_iff, headersAll_iff,
    evalForAll_iff, hor, hnot]
  tauto


end LlamaProxy
